import Mathlib

/-!
Verification of the imgopti image-optimization pipeline.

Shallow embedding of the processing core of the repository:
`imageProcessor.js` (dimension planning, EXIF orientation),
`smartCompression.js` (quality binary search, content analysis),
`formatConverter.js` (format conversion, output filenames),
`utils.js` (validation, savings), `downloadManager.js` (result objects)
and the batch orchestrator in `app.js`.

JavaScript numbers are modelled as exact rationals, `Math.round` as
floor of x + 1/2 (JS rounds half toward positive infinity), byte sizes
and counts as naturals, and the asynchronous canvas / encoder / decoder
primitives as explicit oracle functions passed in as parameters.
-/

/-- JS Math.round: rounds half up (toward positive infinity).
Defined through Rat.floor so that it evaluates by reduction. -/
def jsRound (x : ℚ) : ℤ := (x + 1 / 2).floor

theorem jsRound_eq_intFloor (x : ℚ) : jsRound x = ⌊x + 1 / 2⌋ :=
  (Rat.floor_def' (x + 1 / 2)).trans Rat.floor_def.symm

theorem jsRound_mono {x y : ℚ} (h : x ≤ y) : jsRound x ≤ jsRound y := by
  rw [jsRound_eq_intFloor, jsRound_eq_intFloor]
  exact Int.floor_le_floor (by linarith)

theorem jsRound_zero : jsRound 0 = 0 := by
  rw [jsRound_eq_intFloor]
  norm_num

theorem jsRound_nonneg {x : ℚ} (h : 0 ≤ x) : 0 ≤ jsRound x := by
  rw [← jsRound_zero]
  exact jsRound_mono h

theorem jsRound_intCast (n : ℤ) : jsRound (n : ℚ) = n := by
  rw [jsRound_eq_intFloor, add_comm, Int.floor_add_int]
  norm_num

/-- JS String.prototype.toLowerCase restricted to ASCII letters,
which is all the repository feeds it (format tokens, filenames). -/
def jsToLowerCase (s : String) : String :=
  String.mk (s.toList.map fun c =>
    if 'A' ≤ c ∧ c ≤ 'Z' then Char.ofNat (c.toNat + 32) else c)

/-- Last index of a character in a character list, -1 when absent:
JS String.prototype.lastIndexOf for a single-character needle. -/
def lastIndexOf (c : Char) : List Char → Int
  | [] => -1
  | a :: rest =>
    if lastIndexOf c rest = -1 then (if a = c then 0 else -1)
    else lastIndexOf c rest + 1

/-- JS s.slice(0, n) for a nonnegative n. -/
def jsSliceTo (s : String) (n : ℕ) : String := String.mk (s.toList.take n)

/-- A Blob as the pipeline sees it: a byte length and a MIME type. -/
structure Blob where
  size : ℕ
  type : String
deriving DecidableEq

/-! ### utils.js -/

/-- Error codes from `utils.js` (`ErrorCodes`). -/
inductive ErrorCode where
  | FILE_TOO_LARGE
  | INVALID_FILE_TYPE
  | FILE_CORRUPTED
  | CANVAS_MEMORY
  | COMPRESSION_FAILED
  | CONVERSION_FAILED
  | WEBWORKER_UNAVAILABLE
  | CANVAS_UNSUPPORTED
  | LIBRARY_LOAD_FAILED
deriving DecidableEq

/-- `MAX_FILE_SIZE = 10 * 1024 * 1024` from `utils.js`. -/
def MAX_FILE_SIZE : ℕ := 10 * 1024 * 1024

/-- `ALLOWED_TYPES` from `utils.js`. -/
def ALLOWED_TYPES : List String :=
  ["image/jpeg", "image/png", "image/webp", "image/gif"]

/-- A File as `validateFile` inspects it: byte size and declared MIME type. -/
structure JsFile where
  size : ℕ
  type : String
deriving DecidableEq

/-- `validateFile` from `utils.js`. A missing file models a falsy
argument; a thrown `ImageOptimizerError` is modelled by its code. -/
def validateFile : Option JsFile → Except ErrorCode Bool
  | none => .error .INVALID_FILE_TYPE
  | some f =>
    if MAX_FILE_SIZE < f.size then .error .FILE_TOO_LARGE
    else if f.type ∈ ALLOWED_TYPES then .ok true
    else .error .INVALID_FILE_TYPE

/-- `getMimeType` from `utils.js`: table lookup on the lowercased
format token, defaulting to image/jpeg. -/
def getMimeType (format : String) : String :=
  let f := jsToLowerCase format
  if f = "jpeg" then "image/jpeg"
  else if f = "jpg" then "image/jpeg"
  else if f = "png" then "image/png"
  else if f = "webp" then "image/webp"
  else if f = "gif" then "image/gif"
  else "image/jpeg"

/-- `getExtensionFromMime` from `utils.js`, defaulting to jpg. -/
def getExtensionFromMime (mimeType : String) : String :=
  if mimeType = "image/jpeg" then "jpg"
  else if mimeType = "image/png" then "png"
  else if mimeType = "image/webp" then "webp"
  else if mimeType = "image/gif" then "gif"
  else "jpg"

/-- `calculateSavings` from `utils.js`. -/
def calculateSavings (originalSize newSize : ℕ) : ℤ :=
  if originalSize = 0 then 0
  else max 0 (jsRound ((((originalSize : ℚ) - (newSize : ℚ)) / (originalSize : ℚ)) * 100))

/-- Modelled from the spec wording of C8: the reported savings is
max(0, round((originalSize - newSize) / originalSize * 100)). -/
def savingsSpec (originalSize newSize : ℕ) : ℤ :=
  max 0 (jsRound ((((originalSize : ℚ) - (newSize : ℚ)) / (originalSize : ℚ)) * 100))

/-! ### downloadManager.js -/

/-- The result object built by `createResultObject` in
`downloadManager.js` (blob and thumbnail fields omitted except size). -/
structure ResultObj where
  originalName : String
  originalSize : ℕ
  newName : String
  newSize : ℕ
  format : String
  savings : ℤ
deriving DecidableEq

/-- `createResultObject` from `downloadManager.js`. -/
def createResultObject (blob : Blob) (originalName : String)
    (originalSize : ℕ) (format : String) : ResultObj :=
  let newSize := blob.size
  let savings : ℤ :=
    if 0 < originalSize then
      jsRound ((((originalSize : ℚ) - (newSize : ℚ)) / (originalSize : ℚ)) * 100)
    else 0
  let dotIndex := lastIndexOf '.' originalName.toList
  let baseName :=
    if dotIndex ≠ -1 then jsSliceTo originalName dotIndex.toNat else originalName
  let ext := if format = "jpeg" then "jpg" else format
  { originalName := originalName
    originalSize := originalSize
    newName := baseName ++ "_optimized." ++ ext
    newSize := newSize
    format := format
    savings := max 0 savings }

/-! ## C8: savings floor -/

/-- C8: the reported savings percentage equals
max(0, round((originalSize - newSize) / originalSize * 100)), so a
larger output is reported as 0 percent, and a zero originalSize yields
0; the result object of `createResultObject` carries the same value. -/
theorem calculateSavings_spec (originalSize newSize : ℕ) :
    calculateSavings originalSize newSize = savingsSpec originalSize newSize ∧
    calculateSavings 0 newSize = 0 ∧
    (∀ (blob : Blob) (name format : String),
      (createResultObject blob name originalSize format).savings =
        savingsSpec originalSize blob.size) := by
  refine ⟨?_, ?_, ?_⟩
  · by_cases h : originalSize = 0
    · subst h
      simp [calculateSavings, savingsSpec, jsRound_zero]
    · simp [calculateSavings, savingsSpec, h]
  · simp [calculateSavings]
  · intro blob name format
    by_cases h : originalSize = 0
    · subst h
      simp [createResultObject, savingsSpec, jsRound_zero]
    · have h' : 0 < originalSize := Nat.pos_of_ne_zero h
      simp [createResultObject, savingsSpec, h']

/-! ## C10: input validation gate -/

/-- C10: `validateFile` accepts exactly the files of size at most
10*1024*1024 bytes whose MIME type is one of the four allowed image
types; an oversize file is rejected with FILE_TOO_LARGE, and a missing
file or a (not oversize) disallowed type with INVALID_FILE_TYPE. -/
theorem validateFile_gate :
    (∀ f : JsFile, validateFile (some f) = .ok true ↔
      (f.size ≤ MAX_FILE_SIZE ∧ f.type ∈ ALLOWED_TYPES)) ∧
    (∀ f : JsFile, MAX_FILE_SIZE < f.size →
      validateFile (some f) = .error .FILE_TOO_LARGE) ∧
    validateFile none = .error .INVALID_FILE_TYPE ∧
    (∀ f : JsFile, f.size ≤ MAX_FILE_SIZE → f.type ∉ ALLOWED_TYPES →
      validateFile (some f) = .error .INVALID_FILE_TYPE) := by
  refine ⟨?_, ?_, rfl, ?_⟩
  · intro f
    constructor
    · intro h
      by_cases hs : MAX_FILE_SIZE < f.size
      · simp [validateFile, hs] at h
      · by_cases ht : f.type ∈ ALLOWED_TYPES
        · exact ⟨Nat.le_of_not_lt hs, ht⟩
        · simp [validateFile, hs, ht] at h
    · rintro ⟨hs, ht⟩
      simp [validateFile, Nat.not_lt_of_le hs, ht]
  · intro f hs
    simp [validateFile, hs]
  · intro f hs ht
    simp [validateFile, Nat.not_lt_of_le hs, ht]

/-- Witness for C10: a 5 MB PNG is accepted; an 11 MB JPEG is rejected
as FILE_TOO_LARGE; a text file is rejected as INVALID_FILE_TYPE. -/
theorem validateFile_gate_witness :
    validateFile (some ⟨5 * 1024 * 1024, "image/png"⟩) = .ok true ∧
    validateFile (some ⟨11 * 1024 * 1024, "image/jpeg"⟩) = .error .FILE_TOO_LARGE ∧
    validateFile (some ⟨100, "text/plain"⟩) = .error .INVALID_FILE_TYPE := by
  refine ⟨?_, ?_, ?_⟩
  · exact (validateFile_gate.1 ⟨5 * 1024 * 1024, "image/png"⟩).2 (by decide)
  · exact validateFile_gate.2.1 ⟨11 * 1024 * 1024, "image/jpeg"⟩ (by decide)
  · exact validateFile_gate.2.2.2 ⟨100, "text/plain"⟩ (by decide) (by decide)

/-! ### formatConverter.js -/

/-- Observable canvas operations performed by the encode paths:
filling the canvas with opaque white, and serializing the canvas to a
blob of a given MIME type at a given (normalized) quality. -/
inductive TraceOp where
  | fillWhite
  | encode (mime : String) (quality : ℚ)
deriving DecidableEq

/-- `convertFormat` from `formatConverter.js`, instrumented with the
trace of canvas operations it performs. The environment `env` models
the canvas re-encode primitive (drawing the decoded blob is implicit in
it); the returned blob is `env`'s output on the conversion path. -/
def convertFormat (env : String → ℚ → Blob) (blob : Blob)
    (targetFormat : String) (quality : ℚ) : List TraceOp × Blob :=
  let targetMime := getMimeType targetFormat
  if blob.type = targetMime then ([], blob)
  else
    let fillOps :=
      if targetFormat = "jpeg" ∨ targetFormat = "jpg" then [TraceOp.fillWhite] else []
    let normalizedQuality := max (1 / 10) (min 1 (quality / 100))
    (fillOps ++ [TraceOp.encode targetMime normalizedQuality],
     env targetMime normalizedQuality)

/-- `generateOutputFilename` from `formatConverter.js`. -/
def generateOutputFilename (originalName format : String) : String :=
  let dotIndex := lastIndexOf '.' originalName.toList
  let baseName :=
    if dotIndex ≠ -1 then jsSliceTo originalName dotIndex.toNat else originalName
  let newExt := getExtensionFromMime (getMimeType format)
  baseName ++ "_optimized." ++ newExt

/-- Modelled from the spec wording of C6: the original name with its
last dot-extension removed, unchanged if it has no dot. -/
def stripLastExtSpec : List Char → List Char
  | [] => []
  | a :: rest =>
    if '.' ∈ rest then a :: stripLastExtSpec rest
    else if a = '.' then []
    else a :: rest

/-- Modelled from the spec wording of C6: buildName_optimized.ext with
ext equal to jpg for jpeg and the format token verbatim otherwise. -/
def outputFilenameSpec (originalName format : String) : String :=
  String.mk (stripLastExtSpec originalName.toList) ++ "_optimized." ++
    (if format = "jpeg" then "jpg" else format)

theorem lastIndexOf_ge (c : Char) (l : List Char) : -1 ≤ lastIndexOf c l := by
  induction l with
  | nil => simp [lastIndexOf]
  | cons a rest ih =>
    simp only [lastIndexOf]
    split
    · split <;> omega
    · omega

theorem lastIndexOf_eq_neg_one_iff (c : Char) (l : List Char) :
    lastIndexOf c l = -1 ↔ c ∉ l := by
  induction l with
  | nil => simp [lastIndexOf]
  | cons a rest ih =>
    simp only [lastIndexOf, List.mem_cons]
    have hge := lastIndexOf_ge c rest
    split_ifs with hr hac
    · exact iff_of_false (by decide) (fun hB => hB (Or.inl hac.symm))
    · refine iff_of_true rfl ?_
      rintro (h | h)
      · exact hac h.symm
      · exact (ih.mp hr) h
    · refine iff_of_false (by omega) (fun hB => ?_)
      refine hB (Or.inr ?_)
      by_contra hc
      exact hr (ih.mpr hc)

theorem take_lastIndexOf_eq_strip (l : List Char) :
    (if lastIndexOf '.' l ≠ -1
      then l.take (lastIndexOf '.' l).toNat else l) = stripLastExtSpec l := by
  induction l with
  | nil => simp [lastIndexOf, stripLastExtSpec]
  | cons a rest ih =>
    have hge := lastIndexOf_ge '.' rest
    by_cases hr : lastIndexOf '.' rest = -1
    · have hnm : '.' ∉ rest := (lastIndexOf_eq_neg_one_iff '.' rest).mp hr
      by_cases hac : a = '.'
      · simp [lastIndexOf, stripLastExtSpec, hr, hac, hnm]
      · simp [lastIndexOf, stripLastExtSpec, hr, hac, hnm]
    · have hmem : '.' ∈ rest := by
        by_contra hnm
        exact hr ((lastIndexOf_eq_neg_one_iff '.' rest).mpr hnm)
      obtain ⟨k, hk⟩ : ∃ k : ℕ, lastIndexOf '.' rest = (k : ℤ) :=
        ⟨(lastIndexOf '.' rest).toNat, (Int.toNat_of_nonneg (by omega)).symm⟩
      have hne : lastIndexOf '.' (a :: rest) = (k : ℤ) + 1 := by
        simp only [lastIndexOf, hk]
        rw [if_neg (by omega : ¬((k : ℤ) = -1))]
      rw [hk] at ih
      simp only [hne, stripLastExtSpec, hmem, if_true]
      have h1 : ((k : ℤ) + 1) ≠ -1 := by omega
      have h2 : ((k : ℤ) + 1).toNat = k + 1 := by omega
      simp only [h1, if_true, ne_eq, not_false_iff, h2, List.take_succ_cons]
      have h3 : ((k : ℤ)) ≠ -1 := by omega
      have h4 : ((k : ℤ)).toNat = k := by omega
      simp only [h3, if_true, ne_eq, not_false_iff, h4] at ih
      rw [ih]

/-! ## C6: output filename convention -/

/-- C6: for the repository's format tokens, the generated output name
is the original name with its last dot-extension removed, followed by
_optimized. and the extension: jpg for jpeg, and the format token
verbatim otherwise; in particular vacation.JPG converted to webp is
named vacation_optimized.webp. -/
theorem generateOutputFilename_spec :
    (∀ name format : String,
      format ∈ (["jpeg", "jpg", "png", "webp", "gif"] : List String) →
      generateOutputFilename name format = outputFilenameSpec name format) ∧
    generateOutputFilename "vacation.JPG" "webp" = "vacation_optimized.webp" := by
  constructor
  · intro name format hf
    have hbase :
        (if lastIndexOf '.' name.toList ≠ -1
          then jsSliceTo name (lastIndexOf '.' name.toList).toNat else name) =
        String.mk (stripLastExtSpec name.toList) := by
      rw [← take_lastIndexOf_eq_strip name.toList]
      unfold jsSliceTo
      split
      · rfl
      · rfl
    fin_cases hf <;>
      · show (if lastIndexOf '.' name.toList ≠ -1
            then jsSliceTo name (lastIndexOf '.' name.toList).toNat else name) ++
            "_optimized." ++ _ = _
        rw [hbase]
        rfl
  · decide

/-- Witness for C6: the filename theorem applied at the concrete
scenario of the spec. -/
theorem generateOutputFilename_spec_witness :
    generateOutputFilename "vacation.JPG" "webp" =
      outputFilenameSpec "vacation.JPG" "webp" :=
  generateOutputFilename_spec.1 "vacation.JPG" "webp" (by decide)

/-! ## C9: format-conversion short-circuit -/

/-- C9: `convertFormat` is an identity on blobs whose MIME type
already equals the target format's MIME type: the input blob itself is
returned and no canvas operation (decode, white fill or re-encode) is
performed. -/
theorem convertFormat_identity (env : String → ℚ → Blob) (blob : Blob)
    (targetFormat : String) (quality : ℚ)
    (h : blob.type = getMimeType targetFormat) :
    convertFormat env blob targetFormat quality = ([], blob) := by
  simp [convertFormat, h]

/-- Witness for C9: a webp blob converted to webp is returned as-is
with an empty operation trace. -/
theorem convertFormat_identity_witness :
    convertFormat (fun m _ => ⟨1, m⟩) ⟨500, "image/webp"⟩ "webp" 80 =
      ([], ⟨500, "image/webp"⟩) :=
  convertFormat_identity (fun m _ => ⟨1, m⟩) ⟨500, "image/webp"⟩ "webp" 80 (by decide)

/-! ### imageProcessor.js: calculateDimensions -/

/-- The unit of the requested dimensions: px or percent. -/
inductive SizeUnit where
  | px
  | percent
deriving DecidableEq

/-- The destructured parameter object of `calculateDimensions`. -/
structure DimParams where
  originalWidth : ℚ
  originalHeight : ℚ
  targetWidth : ℚ
  targetHeight : ℚ
  unit : SizeUnit
  maintainAspectRatio : Bool
deriving DecidableEq

/-- `MAX_DIMENSION = 16384` from `calculateDimensions`. -/
def MAX_DIMENSION : ℚ := 16384

/-- The body of `calculateDimensions` up to and including the minimum
clamp (percent conversion, aspect-ratio handling, Math.max(1, ...)),
before the maximum-dimension cap. JS truthiness of a number is
modelled as being nonzero. -/
def preCapDims (p : DimParams) : ℚ × ℚ :=
  let newWidth0 : ℚ :=
    if p.unit = SizeUnit.percent
    then ((jsRound (p.originalWidth * (p.targetWidth / 100)) : ℤ) : ℚ)
    else p.targetWidth
  let newHeight0 : ℚ :=
    if p.unit = SizeUnit.percent
    then ((jsRound (p.originalHeight * (p.targetHeight / 100)) : ℤ) : ℚ)
    else p.targetHeight
  let pair : ℚ × ℚ :=
    if p.maintainAspectRatio then
      let aspectRatio := p.originalWidth / p.originalHeight
      if newWidth0 ≠ 0 ∧ newHeight0 = 0 then
        (newWidth0, ((jsRound (newWidth0 / aspectRatio) : ℤ) : ℚ))
      else if newHeight0 ≠ 0 ∧ newWidth0 = 0 then
        (((jsRound (newHeight0 * aspectRatio) : ℤ) : ℚ), newHeight0)
      else if newWidth0 ≠ 0 ∧ newHeight0 ≠ 0 then
        let widthRatio := newWidth0 / p.originalWidth
        let heightRatio := newHeight0 / p.originalHeight
        let scale := min widthRatio heightRatio
        (((jsRound (p.originalWidth * scale) : ℤ) : ℚ),
         ((jsRound (p.originalHeight * scale) : ℤ) : ℚ))
      else (newWidth0, newHeight0)
    else (newWidth0, newHeight0)
  (max 1 (if pair.1 ≠ 0 then pair.1 else p.originalWidth),
   max 1 (if pair.2 ≠ 0 then pair.2 else p.originalHeight))

/-- `calculateDimensions` from `imageProcessor.js`: the min-clamped
dimensions followed by the uniform downscale applied when a dimension
exceeds `MAX_DIMENSION`. -/
def calculateDimensions (p : DimParams) : ℚ × ℚ :=
  let pre := preCapDims p
  if MAX_DIMENSION < pre.1 ∨ MAX_DIMENSION < pre.2 then
    let scale := MAX_DIMENSION / max pre.1 pre.2
    (((jsRound (pre.1 * scale) : ℤ) : ℚ), ((jsRound (pre.2 * scale) : ℤ) : ℚ))
  else pre

theorem preCapDims_ge_one (p : DimParams) :
    1 ≤ (preCapDims p).1 ∧ 1 ≤ (preCapDims p).2 :=
  ⟨le_max_left 1 _, le_max_left 1 _⟩

/-! ## C1: dimension planning determinism and bounds -/

/-- Counterexample to C1 as stated: with a 100 by 100 source, a
requested 100000 by 1 px resize without aspect-ratio preservation, the
uniform downscale for the 16384 cap rounds the height to 0, violating
the claimed lower bound of 1. -/
theorem calculateDimensions_lower_bound_counterexample :
    calculateDimensions ⟨100, 100, 100000, 1, SizeUnit.px, false⟩ = (16384, 0) ∧
    ¬(1 ≤ (calculateDimensions ⟨100, 100, 100000, 1, SizeUnit.px, false⟩).2) := by
  have hpx : SizeUnit.px ≠ SizeUnit.percent := by decide
  have hpre : preCapDims ⟨100, 100, 100000, 1, SizeUnit.px, false⟩ = (100000, 1) := by
    norm_num [preCapDims, max_def, hpx]
  have hcd : calculateDimensions ⟨100, 100, 100000, 1, SizeUnit.px, false⟩ = (16384, 0) := by
    simp only [calculateDimensions, hpre, MAX_DIMENSION, jsRound_eq_intFloor, max_def]
    norm_num
  refine ⟨hcd, ?_⟩
  rw [hcd]
  norm_num

/-- C1 amended: `calculateDimensions` is a pure function (equal inputs
give equal outputs); both returned dimensions are at most 16384 and at
least 0; and both are at least 1 whenever the pre-cap dimensions do not
exceed 16384 — but when the uniform downscale for the cap is applied,
the smaller dimension can round to 0, so the unconditional lower bound
of 1 claimed by the spec does not hold. -/
theorem calculateDimensions_bounds (p : DimParams) :
    calculateDimensions p = calculateDimensions p ∧
    (calculateDimensions p).1 ≤ 16384 ∧ (calculateDimensions p).2 ≤ 16384 ∧
    0 ≤ (calculateDimensions p).1 ∧ 0 ≤ (calculateDimensions p).2 ∧
    ((preCapDims p).1 ≤ 16384 → (preCapDims p).2 ≤ 16384 →
      1 ≤ (calculateDimensions p).1 ∧ 1 ≤ (calculateDimensions p).2) := by
  obtain ⟨hw1, hh1⟩ := preCapDims_ge_one p
  set w := (preCapDims p).1 with hw
  set h := (preCapDims p).2 with hh
  by_cases hcap : MAX_DIMENSION < w ∨ MAX_DIMENSION < h
  · have hmaxpos : (0 : ℚ) < max w h := lt_of_lt_of_le (by norm_num) (le_trans hw1 (le_max_left w h))
    have hscale_pos : 0 < MAX_DIMENSION / max w h := by
      apply div_pos (by norm_num [MAX_DIMENSION]) hmaxpos
    have hkey : ∀ x : ℚ, 1 ≤ x → x ≤ max w h →
        ((jsRound (x * (MAX_DIMENSION / max w h)) : ℤ) : ℚ) ≤ 16384 ∧
        0 ≤ ((jsRound (x * (MAX_DIMENSION / max w h)) : ℤ) : ℚ) := by
      intro x hx1 hxm
      have hle : x * (MAX_DIMENSION / max w h) ≤ 16384 := by
        have : x * (MAX_DIMENSION / max w h) ≤ max w h * (MAX_DIMENSION / max w h) :=
          mul_le_mul_of_nonneg_right hxm (le_of_lt hscale_pos)
        have heq : max w h * (MAX_DIMENSION / max w h) = MAX_DIMENSION := by
          field_simp
        rw [heq] at this
        simpa [MAX_DIMENSION] using this
      have hge : 0 ≤ x * (MAX_DIMENSION / max w h) :=
        mul_nonneg (le_trans (by norm_num) hx1) (le_of_lt hscale_pos)
      constructor
      · have := jsRound_mono hle
        have h16 : jsRound (16384 : ℚ) = 16384 := by
          have := jsRound_intCast 16384
          simpa using this
        rw [h16] at this
        exact_mod_cast this
      · exact_mod_cast jsRound_nonneg hge
    have hcd : calculateDimensions p =
        (((jsRound (w * (MAX_DIMENSION / max w h)) : ℤ) : ℚ),
         ((jsRound (h * (MAX_DIMENSION / max w h)) : ℤ) : ℚ)) := by
      rw [calculateDimensions, ← hw, ← hh, if_pos hcap]
    obtain ⟨hub1, hlb1⟩ := hkey w hw1 (le_max_left w h)
    obtain ⟨hub2, hlb2⟩ := hkey h hh1 (le_max_right w h)
    refine ⟨rfl, ?_, ?_, ?_, ?_, ?_⟩
    · rw [hcd]; exact hub1
    · rw [hcd]; exact hub2
    · rw [hcd]; exact hlb1
    · rw [hcd]; exact hlb2
    · intro hc1 hc2
      exfalso
      rw [MAX_DIMENSION] at hcap
      rcases hcap with hc | hc
      · exact absurd hc1 (not_le_of_lt hc)
      · exact absurd hc2 (not_le_of_lt hc)
  · have hcd : calculateDimensions p = (w, h) := by
      rw [calculateDimensions, ← hw, ← hh, if_neg hcap]
    push_neg at hcap
    rw [MAX_DIMENSION] at hcap
    refine ⟨rfl, ?_, ?_, ?_, ?_, ?_⟩
    · rw [hcd]; exact hcap.1
    · rw [hcd]; exact hcap.2
    · rw [hcd]; linarith
    · rw [hcd]; linarith
    · intro _ _
      rw [hcd]
      exact ⟨hw1, hh1⟩

/-- Witness for C1: the amended bounds at the concrete request of the
spec scenario (4000 by 3000 source, 1000 px width, keep aspect),
where the pre-cap dimensions stay under the cap and the result is at
least 1 by 1. -/
theorem calculateDimensions_bounds_witness :
    (preCapDims ⟨4000, 3000, 1000, 0, SizeUnit.px, true⟩).1 ≤ 16384 ∧
    (preCapDims ⟨4000, 3000, 1000, 0, SizeUnit.px, true⟩).2 ≤ 16384 ∧
    1 ≤ (calculateDimensions ⟨4000, 3000, 1000, 0, SizeUnit.px, true⟩).1 ∧
    1 ≤ (calculateDimensions ⟨4000, 3000, 1000, 0, SizeUnit.px, true⟩).2 := by
  have hpx : SizeUnit.px ≠ SizeUnit.percent := by decide
  have hpre : preCapDims ⟨4000, 3000, 1000, 0, SizeUnit.px, true⟩ = (1000, 750) := by
    norm_num [preCapDims, max_def, jsRound_eq_intFloor, hpx]
  have h1 : (preCapDims ⟨4000, 3000, 1000, 0, SizeUnit.px, true⟩).1 ≤ 16384 := by
    rw [hpre]
    norm_num
  have h2 : (preCapDims ⟨4000, 3000, 1000, 0, SizeUnit.px, true⟩).2 ≤ 16384 := by
    rw [hpre]
    norm_num
  have := (calculateDimensions_bounds ⟨4000, 3000, 1000, 0, SizeUnit.px, true⟩).2.2.2.2.2 h1 h2
  exact ⟨h1, h2, this.1, this.2⟩

/-! ### imageProcessor.js: EXIF orientation -/

/-- Helper for JS String.prototype.includes: does the list start with
the given sub-list. -/
def startsWithSub : List Char → List Char → Bool
  | _, [] => true
  | [], _ :: _ => false
  | a :: as, b :: bs => (a = b) && startsWithSub as bs

/-- Helper for JS String.prototype.includes: does the list contain the
given sub-list contiguously. -/
def containsSub : List Char → List Char → Bool
  | [], sub => sub.isEmpty
  | a :: rest, sub => startsWithSub (a :: rest) sub || containsSub rest sub

/-- JS String.prototype.includes. -/
def jsIncludes (s sub : String) : Bool := containsSub s.toList sub.toList

/-- One entry of `ORIENTATION_TRANSFORMS`: rotation in degrees and
horizontal flip. -/
structure Transform where
  rotate : ℕ
  flip : Bool
deriving DecidableEq

/-- The `ORIENTATION_TRANSFORMS` lookup object of `imageProcessor.js`;
`none` models an absent key (JS undefined). -/
def ORIENTATION_TRANSFORMS (code : ℕ) : Option Transform :=
  if code = 1 then some ⟨0, false⟩
  else if code = 2 then some ⟨0, true⟩
  else if code = 3 then some ⟨180, false⟩
  else if code = 4 then some ⟨180, true⟩
  else if code = 5 then some ⟨90, true⟩
  else if code = 6 then some ⟨90, false⟩
  else if code = 7 then some ⟨270, true⟩
  else if code = 8 then some ⟨270, false⟩
  else none

/-- `getExifOrientation` from `imageProcessor.js`. The exifr call is
an oracle: `Except.error` models a thrown/failed extraction (caught by
the try/catch, which returns 1), `Except.ok none` models an undefined
orientation (the `orientation || 1` fallback), `Except.ok (some o)`
a returned number, with 0 falsy. -/
def getExifOrientation (fileType : String)
    (extract : Except Unit (Option ℕ)) : ℕ :=
  if !(jsIncludes fileType "jpeg" || jsIncludes fileType "jpg") then 1
  else
    match extract with
    | .error _ => 1
    | .ok none => 1
    | .ok (some o) => if o = 0 then 1 else o

/-- The transform resolution in `processImage`:
`ORIENTATION_TRANSFORMS[orientation] || ORIENTATION_TRANSFORMS[1]`,
where `ORIENTATION_TRANSFORMS[1]` is the normal transform. -/
def resolveTransform (fileType : String)
    (extract : Except Unit (Option ℕ)) : Transform :=
  (ORIENTATION_TRANSFORMS (getExifOrientation fileType extract)).getD ⟨0, false⟩

/-! ## C4: orientation resolution -/

/-- C4: each EXIF code 1 to 8 maps to exactly the rotation/mirror pair
of the spec table; a MIME type containing neither jpeg nor jpg, an
extraction failure, and an out-of-range code (0 or above 8) all
resolve to code 1's mapping (0 degrees, not mirrored), and extraction
failure is absorbed rather than propagated. -/
theorem orientation_table_and_fallbacks :
    (ORIENTATION_TRANSFORMS 1 = some ⟨0, false⟩ ∧
     ORIENTATION_TRANSFORMS 2 = some ⟨0, true⟩ ∧
     ORIENTATION_TRANSFORMS 3 = some ⟨180, false⟩ ∧
     ORIENTATION_TRANSFORMS 4 = some ⟨180, true⟩ ∧
     ORIENTATION_TRANSFORMS 5 = some ⟨90, true⟩ ∧
     ORIENTATION_TRANSFORMS 6 = some ⟨90, false⟩ ∧
     ORIENTATION_TRANSFORMS 7 = some ⟨270, true⟩ ∧
     ORIENTATION_TRANSFORMS 8 = some ⟨270, false⟩) ∧
    (∀ (t : String) (e : Except Unit (Option ℕ)),
      jsIncludes t "jpeg" = false → jsIncludes t "jpg" = false →
      resolveTransform t e = ⟨0, false⟩) ∧
    (∀ t : String, resolveTransform t (.error ()) = ⟨0, false⟩) ∧
    (∀ (t : String) (c : ℕ), c = 0 ∨ 8 < c →
      resolveTransform t (.ok (some c)) = ⟨0, false⟩) := by
  refine ⟨by decide, ?_, ?_, ?_⟩
  · intro t e h1 h2
    simp [resolveTransform, getExifOrientation, jsIncludes] at *
    simp [h1, h2, ORIENTATION_TRANSFORMS]
  · intro t
    rw [resolveTransform, getExifOrientation]
    split
    · simp [ORIENTATION_TRANSFORMS]
    · simp [ORIENTATION_TRANSFORMS]
  · intro t c hc
    rw [resolveTransform, getExifOrientation]
    split
    · simp [ORIENTATION_TRANSFORMS]
    · rcases hc with hc | hc
      · subst hc
        simp [ORIENTATION_TRANSFORMS]
      · have h0 : c ≠ 0 := by omega
        simp only [h0, if_false]
        have hnone : ORIENTATION_TRANSFORMS c = none := by
          rw [ORIENTATION_TRANSFORMS]
          split_ifs <;> first | omega | rfl
        rw [hnone]
        rfl

/-- Witness for C4: a PNG resolves to the normal transform whatever
the extractor would say; a JPEG whose extraction throws resolves to
normal; a JPEG with out-of-range code 9 resolves to normal. -/
theorem orientation_table_and_fallbacks_witness :
    resolveTransform "image/png" (.ok (some 6)) = ⟨0, false⟩ ∧
    resolveTransform "image/jpeg" (.error ()) = ⟨0, false⟩ ∧
    resolveTransform "image/jpeg" (.ok (some 9)) = ⟨0, false⟩ :=
  ⟨orientation_table_and_fallbacks.2.1 "image/png" (.ok (some 6))
      (by decide) (by decide),
   orientation_table_and_fallbacks.2.2.1 "image/jpeg",
   orientation_table_and_fallbacks.2.2.2 "image/jpeg" 9 (by omega)⟩

/-! ### app.js: processSingleFile, steps 3 to 5 -/

/-- The processed canvas reaching step 3 of `processSingleFile`.
Only the property the C5 claim quantifies over is kept: whether the
raster still holds transparent pixels. -/
structure Canvas where
  hasTransparency : Bool
deriving DecidableEq

/-- Steps 3 to 5 of `processSingleFile` in `app.js`, instrumented with
the trace of canvas operations: the initial `canvasToBlob` encode at
the normalized quality, the optional `compressImage` pass (an oracle
returning `none` when compression throws and is caught), and the final
`convertFormat` pass when the blob MIME does not match the target.
`canvasEncode` and `convEncode` model the two `canvas.toBlob`
primitives. The decode/resize steps 1 and 2 are upstream of the canvas
and do not encode. -/
def processSingleFile (canvas : Canvas) (canvasEncode : String → ℚ → Blob)
    (compress : Blob → Option Blob) (convEncode : String → ℚ → Blob)
    (targetFormat : String) (quality : ℚ) : List TraceOp × Blob :=
  let targetMime := getMimeType targetFormat
  let normalizedQuality := max (1 / 10) (min 1 (quality / 100))
  let blob1 := canvasEncode targetMime normalizedQuality
  let trace1 := [TraceOp.encode targetMime normalizedQuality]
  let blob2 :=
    match compress blob1 with
    | some compressedBlob =>
      if compressedBlob.size < blob1.size then compressedBlob else blob1
    | none => blob1
  if blob2.type = targetMime then (trace1, blob2)
  else
    let conv := convertFormat convEncode blob2 targetFormat quality
    (trace1 ++ conv.1, conv.2)

/-! ## C5: JPEG transparency handling -/

/-- Counterexample to C5 as stated: a transparent canvas encoded to
jpeg through the pipeline whose `canvas.toBlob` returns a jpeg blob
(the normal case) performs exactly one encode and never fills the
canvas with white: the white fill exists only inside `convertFormat`,
which this run never reaches. -/
theorem jpeg_white_fill_counterexample :
    (processSingleFile ⟨true⟩ (fun m _ => ⟨100, m⟩) (fun _ => none)
        (fun m _ => ⟨100, m⟩) "jpeg" 80).1 =
      [TraceOp.encode "image/jpeg" (max (1 / 10) (min 1 (80 / 100)))] ∧
    TraceOp.fillWhite ∉
      (processSingleFile ⟨true⟩ (fun m _ => ⟨100, m⟩) (fun _ => none)
        (fun m _ => ⟨100, m⟩) "jpeg" 80).1 := by
  have hmime : getMimeType "jpeg" = "image/jpeg" := by decide
  have hps : (processSingleFile ⟨true⟩ (fun m _ => ⟨100, m⟩) (fun _ => none)
      (fun m _ => ⟨100, m⟩) "jpeg" 80).1 =
      [TraceOp.encode "image/jpeg" (max (1 / 10) (min 1 (80 / 100)))] := by
    simp [processSingleFile, hmime]
  refine ⟨hps, ?_⟩
  rw [hps]
  simp

/-- C5 amended: the white-background compositing for jpeg targets
happens only on the format-conversion path: `convertFormat` fills
white immediately before its re-encode whenever the incoming blob's
MIME differs from the jpeg target MIME, while the initial
`canvasToBlob` encode of the pipeline is always performed first with
no preceding white fill, regardless of source transparency. -/
theorem jpeg_white_fill_conversion_only :
    (∀ (env : String → ℚ → Blob) (blob : Blob) (fmt : String) (q : ℚ),
      (fmt = "jpeg" ∨ fmt = "jpg") → blob.type ≠ getMimeType fmt →
      (convertFormat env blob fmt q).1 =
        [TraceOp.fillWhite,
         TraceOp.encode (getMimeType fmt) (max (1 / 10) (min 1 (q / 100)))]) ∧
    (∀ (canvas : Canvas) (ce : String → ℚ → Blob) (cmp : Blob → Option Blob)
       (env : String → ℚ → Blob) (fmt : String) (q : ℚ),
      (processSingleFile canvas ce cmp env fmt q).1 =
        TraceOp.encode (getMimeType fmt) (max (1 / 10) (min 1 (q / 100))) ::
          ((processSingleFile canvas ce cmp env fmt q).1).tail) := by
  constructor
  · intro env blob fmt q hfmt hne
    rcases hfmt with h | h <;>
      · subst h
        simp [convertFormat, hne]
  · intro canvas ce cmp env fmt q
    rw [processSingleFile]
    split
    · rfl
    · rfl

/-- Witness for C5's amended theorem: converting a webp blob to jpeg
fills white then encodes, in that order. -/
theorem jpeg_white_fill_conversion_only_witness :
    (convertFormat (fun m _ => ⟨60, m⟩) ⟨100, "image/webp"⟩ "jpeg" 80).1 =
      [TraceOp.fillWhite,
       TraceOp.encode (getMimeType "jpeg") (max (1 / 10) (min 1 (80 / 100)))] :=
  jpeg_white_fill_conversion_only.1 (fun m _ => ⟨60, m⟩) ⟨100, "image/webp"⟩
    "jpeg" 80 (Or.inl rfl) (by decide)

/-! ### smartCompression.js: findOptimalQuality -/

/-- The destructured options of `findOptimalQuality`, with defaults
minQuality 10, maxQuality 95, tolerance 1/10, maxIterations 10. -/
structure QualityOptions where
  minQuality : ℤ
  maxQuality : ℤ
  tolerance : ℚ
  maxIterations : ℕ
deriving DecidableEq

/-- The result record of `findOptimalQuality`. -/
structure QualityResult where
  blob : Blob
  quality : ℤ
  iterations : ℕ
deriving DecidableEq

/-- The code after the while loop of `findOptimalQuality`: if no blob
was kept, one extra encode at the kept quality is performed, then the
best result is returned. -/
def findLoopExit (encode : ℚ → Blob) (bestBlob : Option Blob)
    (bestQuality : ℤ) (iterations : ℕ) : QualityResult × List ℚ :=
  match bestBlob with
  | some b => (⟨b, bestQuality, iterations⟩, [])
  | none =>
    (⟨encode ((bestQuality : ℚ) / 100), bestQuality, iterations⟩,
     [(bestQuality : ℚ) / 100])

/-- The binary-search while loop of `findOptimalQuality`. The fuel
argument is maxIterations minus the iterations already performed, so
running out of fuel is exactly the `iterations < maxIterations` bound
failing. The second component collects the quality of every encode
call made. -/
def findLoop (encode : ℚ → Blob) (targetBytes tolerance : ℚ) :
    ℤ → ℤ → Option Blob → ℤ → ℕ → ℕ → QualityResult × List ℚ
  | _, _, bestBlob, bestQuality, iterations, 0 =>
    findLoopExit encode bestBlob bestQuality iterations
  | low, high, bestBlob, bestQuality, iterations, fuel + 1 =>
    if low ≤ high then
      let mid := jsRound (((low : ℚ) + (high : ℚ)) / 2)
      let quality := (mid : ℚ) / 100
      let blob := encode quality
      let size := (blob.size : ℚ)
      let lowerBound := targetBytes * (1 - tolerance)
      let upperBound := targetBytes * (1 + tolerance)
      if lowerBound ≤ size ∧ size ≤ upperBound then
        (⟨blob, mid, iterations + 1⟩, [quality])
      else if targetBytes < size then
        let r := findLoop encode targetBytes tolerance low (mid - 1)
          (some blob) mid (iterations + 1) fuel
        (r.1, quality :: r.2)
      else
        let r := findLoop encode targetBytes tolerance (mid + 1) high
          (some blob) mid (iterations + 1) fuel
        (r.1, quality :: r.2)
    else findLoopExit encode bestBlob bestQuality iterations

/-- `findOptimalQuality` from `smartCompression.js`, with the encode
primitive as an oracle over (MIME type, quality); the PNG early return
does a single encode at quality 1 and reports quality 100. -/
def findOptimalQuality (encode : String → ℚ → Blob) (format : String)
    (targetSizeKB : ℚ) (opts : QualityOptions) : QualityResult × List ℚ :=
  let targetBytes := targetSizeKB * 1024
  let mimeType := "image/" ++ (if format = "jpg" then "jpeg" else format)
  if format = "png" then (⟨encode mimeType 1, 100, 1⟩, [1])
  else
    findLoop (encode mimeType) targetBytes opts.tolerance opts.minQuality
      opts.maxQuality none opts.maxQuality 0 opts.maxIterations

theorem findLoop_calls_bestSome (encode : ℚ → Blob) (tb tol : ℚ) :
    ∀ (fuel : ℕ) (low high : ℤ) (b : Blob) (bq : ℤ) (iters : ℕ),
    ((findLoop encode tb tol low high (some b) bq iters fuel).2).length ≤ fuel := by
  intro fuel
  induction fuel with
  | zero =>
    intro low high b bq iters
    simp [findLoop, findLoopExit]
  | succ f ih =>
    intro low high b bq iters
    by_cases hlh : low ≤ high
    · simp only [findLoop, hlh, if_true]
      split_ifs with h1 h2
      · simp
      · simpa using Nat.succ_le_succ (ih _ _ _ _ _)
      · simpa using Nat.succ_le_succ (ih _ _ _ _ _)
    · simp [findLoop, hlh, findLoopExit]

theorem findLoop_calls_top (encode : ℚ → Blob) (tb tol : ℚ)
    (fuel : ℕ) (low high : ℤ) (bq : ℤ)
    (hfuel : 1 ≤ fuel) (hlh : low ≤ high) :
    ((findLoop encode tb tol low high none bq 0 fuel).2).length ≤ fuel := by
  cases fuel with
  | zero => omega
  | succ f =>
    simp only [findLoop, hlh, if_true]
    split_ifs with h1 h2
    · simp
    · simpa using Nat.succ_le_succ (findLoop_calls_bestSome encode tb tol f _ _ _ _ _)
    · simpa using Nat.succ_le_succ (findLoop_calls_bestSome encode tb tol f _ _ _ _ _)

theorem findLoop_iterations_le (encode : ℚ → Blob) (tb tol : ℚ) :
    ∀ (fuel : ℕ) (low high : ℤ) (best : Option Blob) (bq : ℤ) (iters : ℕ),
    ((findLoop encode tb tol low high best bq iters fuel).1).iterations ≤ iters + fuel := by
  intro fuel
  induction fuel with
  | zero =>
    intro low high best bq iters
    cases best <;> simp [findLoop, findLoopExit]
  | succ f ih =>
    intro low high best bq iters
    by_cases hlh : low ≤ high
    · simp only [findLoop, hlh, if_true]
      split_ifs with h1 h2
      · simp
      · exact le_trans (ih _ _ _ _ _) (by omega)
      · exact le_trans (ih _ _ _ _ _) (by omega)
    · simp only [findLoop, hlh, if_false]
      cases best <;> simp [findLoopExit]

theorem findLoop_blob_from_encode (encode : ℚ → Blob) (tb tol : ℚ) :
    ∀ (fuel : ℕ) (low high : ℤ) (best : Option Blob) (bq : ℤ) (iters : ℕ),
    (best = none ∨ ∃ q, best = some (encode q)) →
    ∃ q, ((findLoop encode tb tol low high best bq iters fuel).1).blob = encode q := by
  intro fuel
  induction fuel with
  | zero =>
    intro low high best bq iters hinv
    rcases hinv with h | ⟨q, hq⟩
    · subst h
      exact ⟨(bq : ℚ) / 100, by simp [findLoop, findLoopExit]⟩
    · subst hq
      exact ⟨q, by simp [findLoop, findLoopExit]⟩
  | succ f ih =>
    intro low high best bq iters hinv
    by_cases hlh : low ≤ high
    · simp only [findLoop, hlh, if_true]
      split_ifs with h1 h2
      · exact ⟨_, rfl⟩
      · exact ih _ _ _ _ _ (Or.inr ⟨_, rfl⟩)
      · exact ih _ _ _ _ _ (Or.inr ⟨_, rfl⟩)
    · simp only [findLoop, hlh, if_false]
      rcases hinv with h | ⟨q, hq⟩
      · subst h
        exact ⟨(bq : ℚ) / 100, by simp [findLoopExit]⟩
      · subst hq
        exact ⟨q, by simp [findLoopExit]⟩

/-! ## C3: quality search termination and totality -/

/-- C3: for any positive target size and any canvas/format (modelled
by an arbitrary encode oracle), `findOptimalQuality` performs at most
maxIterations encode calls, reports at most maxIterations iterations,
and always returns a blob that is an actual output of the encoder,
even when no encode lands inside the tolerance band. The hypotheses
hold for the default options (10, 95, 1/10, 10). -/
theorem findOptimalQuality_bounded (encode : String → ℚ → Blob)
    (format : String) (targetSizeKB : ℚ) (opts : QualityOptions)
    (htarget : 0 < targetSizeKB)
    (hq : opts.minQuality ≤ opts.maxQuality)
    (hiter : 1 ≤ opts.maxIterations) :
    ((findOptimalQuality encode format targetSizeKB opts).2).length ≤
      opts.maxIterations ∧
    ((findOptimalQuality encode format targetSizeKB opts).1).iterations ≤
      opts.maxIterations ∧
    (∃ (mime : String) (q : ℚ),
      ((findOptimalQuality encode format targetSizeKB opts).1).blob =
        encode mime q) := by
  by_cases hpng : format = "png"
  · refine ⟨?_, ?_, ?_⟩
    · simp [findOptimalQuality, hpng]
      omega
    · simp [findOptimalQuality, hpng]
      omega
    · exact ⟨"image/" ++ (if format = "jpg" then "jpeg" else format), 1,
        by simp [findOptimalQuality, hpng]⟩
  · refine ⟨?_, ?_, ?_⟩
    · simp only [findOptimalQuality, hpng, if_false]
      exact findLoop_calls_top _ _ _ _ _ _ _ hiter hq
    · simp only [findOptimalQuality, hpng, if_false]
      simpa using findLoop_iterations_le _ _ _ opts.maxIterations _ _ none _ 0
    · simp only [findOptimalQuality, hpng, if_false]
      obtain ⟨q, hq'⟩ := findLoop_blob_from_encode
        (encode ("image/" ++ (if format = "jpg" then "jpeg" else format)))
        (targetSizeKB * 1024) opts.tolerance opts.maxIterations
        opts.minQuality opts.maxQuality none opts.maxQuality 0 (Or.inl rfl)
      exact ⟨_, q, hq'⟩

/-- Witness for C3: a constant 1 MB encoder never lands inside the
tolerance band for a 10 KB target, yet the search with the default
options stays within 10 encodes and returns an encoder output. -/
theorem findOptimalQuality_bounded_witness :
    ((findOptimalQuality (fun _ _ => ⟨1000000, "image/webp"⟩) "webp" 10
        ⟨10, 95, 1 / 10, 10⟩).2).length ≤ 10 ∧
    ((findOptimalQuality (fun _ _ => ⟨1000000, "image/webp"⟩) "webp" 10
        ⟨10, 95, 1 / 10, 10⟩).1).iterations ≤ 10 ∧
    (∃ (mime : String) (q : ℚ),
      ((findOptimalQuality (fun _ _ => ⟨1000000, "image/webp"⟩) "webp" 10
        ⟨10, 95, 1 / 10, 10⟩).1).blob =
        (fun (_ : String) (_ : ℚ) => Blob.mk 1000000 "image/webp") mime q) :=
  findOptimalQuality_bounded (fun _ _ => ⟨1000000, "image/webp"⟩) "webp" 10
    ⟨10, 95, 1 / 10, 10⟩ (by norm_num) (by norm_num) (by norm_num)

/-! ### smartCompression.js: analyzeImage -/

/-- The analysis record returned by `analyzeImage` (the width, height
and totalPixels fields are omitted: no claim mentions them). -/
structure Analysis where
  hasTransparency : Bool
  colorCount : ℕ
  avgVariance : ℚ
  isPhoto : Bool
  isGraphic : Bool

/-- The sampling loop of `analyzeImage`: every 40th byte index is
visited (every 10th RGBA pixel); transparency, the set of quantized
colors (a list without duplicates, as the JS Set of key strings) and
the total variance against the previously sampled pixel are
accumulated. `data` is the pixel byte array as an index function and
`len` its length; the fuel is at least the number of iterations, so it
never cuts the loop short. -/
def analyzeLoop (data : ℕ → ℕ) (len : ℕ) :
    ℕ → ℕ → List (ℕ × ℕ × ℕ) → Bool → ℕ → ℕ → Bool × ℕ × ℕ × ℕ
  | 0, _, colors, hasT, totalVar, pixelCount =>
    (hasT, colors.length, totalVar, pixelCount)
  | fuel + 1, i, colors, hasT, totalVar, pixelCount =>
    if i < len then
      let r := data i
      let g := data (i + 1)
      let b := data (i + 2)
      let a := data (i + 3)
      let hasT' := hasT || decide (a < 255)
      let q := (r / 16, g / 16, b / 16)
      let colors' := if colors.contains q then colors else q :: colors
      let totalVar' :=
        if 0 < i then
          totalVar + ((r : ℤ) - (data (i - 40) : ℤ)).natAbs
            + ((g : ℤ) - (data (i - 39) : ℤ)).natAbs
            + ((b : ℤ) - (data (i - 38) : ℤ)).natAbs
        else totalVar
      analyzeLoop data len fuel (i + 40) colors' hasT' totalVar' (pixelCount + 1)
    else (hasT, colors.length, totalVar, pixelCount)

/-- `analyzeImage` from `smartCompression.js` over a pixel byte array
given as length plus index function. -/
def analyzeImage (len : ℕ) (data : ℕ → ℕ) : Analysis :=
  let s := analyzeLoop data len len 0 [] false 0 0
  let colorCount := s.2.1
  let avgVariance : ℚ := (s.2.2.1 : ℚ) / ((max 1 s.2.2.2 : ℕ) : ℚ)
  { hasTransparency := s.1
    colorCount := colorCount
    avgVariance := avgVariance
    isPhoto := decide ((30 : ℚ) < avgVariance) && decide (1000 < colorCount)
    isGraphic := decide (avgVariance < (20 : ℚ)) || decide (colorCount < 500) }

/-- One unfolding of the sampling loop when the index is in range. -/
theorem analyzeLoop_step (data : ℕ → ℕ) (len fuel i : ℕ)
    (colors : List (ℕ × ℕ × ℕ)) (hasT : Bool) (totalVar pixelCount : ℕ)
    (h : i < len) :
    analyzeLoop data len (fuel + 1) i colors hasT totalVar pixelCount =
      analyzeLoop data len fuel (i + 40)
        (if colors.contains (data i / 16, data (i + 1) / 16, data (i + 2) / 16)
          then colors
          else (data i / 16, data (i + 1) / 16, data (i + 2) / 16) :: colors)
        (hasT || decide (data (i + 3) < 255))
        (if 0 < i then
          totalVar + ((data i : ℤ) - (data (i - 40) : ℤ)).natAbs
            + ((data (i + 1) : ℤ) - (data (i - 39) : ℤ)).natAbs
            + ((data (i + 2) : ℤ) - (data (i - 38) : ℤ)).natAbs
        else totalVar)
        (pixelCount + 1) := by
  simp only [analyzeLoop, h, if_true]

/-- A synthetic opaque raster for the analyzer: sample 2j and 2j+1
carry the j-th of 256 quantized (r,g) combinations, and the blue
channel alternates between 0 and 48 on consecutive samples, so every
consecutive-sample difference is at least 48 while all 512 sampled
quantized colors are distinct. -/
def sampleData (i : ℕ) : ℕ :=
  if i % 40 = 0 then (i / 80 % 16) * 16
  else if i % 40 = 1 then (i / 80 / 16 % 16) * 16
  else if i % 40 = 2 then (if (i / 40) % 2 = 0 then 0 else 48)
  else 255

/-- The quantized color of the k-th sample of `sampleData`. -/
def colorOf (k : ℕ) : ℕ × ℕ × ℕ :=
  (k / 2 % 16, k / 2 / 16 % 16, if k % 2 = 0 then 0 else 3)

theorem sampleData_r (k : ℕ) : sampleData (40 * k) = (k / 2 % 16) * 16 := by
  have h1 : (40 * k) % 40 = 0 := by omega
  have h2 : (40 * k) / 80 = k / 2 := by omega
  simp [sampleData, h1, h2]

theorem sampleData_g (k : ℕ) :
    sampleData (40 * k + 1) = (k / 2 / 16 % 16) * 16 := by
  have h1 : (40 * k + 1) % 40 = 1 := by omega
  have h2 : (40 * k + 1) / 80 = k / 2 := by omega
  simp [sampleData, h1, h2]

theorem sampleData_b (k : ℕ) :
    sampleData (40 * k + 2) = (if k % 2 = 0 then 0 else 48) := by
  have h1 : (40 * k + 2) % 40 = 2 := by omega
  have h2 : (40 * k + 2) / 40 = k := by omega
  simp [sampleData, h1, h2]

theorem sampleData_a (k : ℕ) : sampleData (40 * k + 3) = 255 := by
  have h1 : (40 * k + 3) % 40 = 3 := by omega
  simp [sampleData, h1]

theorem sampleData_color (k : ℕ) :
    (sampleData (40 * k) / 16, sampleData (40 * k + 1) / 16,
      sampleData (40 * k + 2) / 16) = colorOf k := by
  rw [sampleData_r, sampleData_g, sampleData_b, colorOf]
  refine congrArg₂ Prod.mk (by omega) (congrArg₂ Prod.mk (by omega) ?_)
  by_cases h : k % 2 = 0 <;> simp [h]

theorem colorOf_inj {j k : ℕ} (hj : j < 512) (hk : k < 512)
    (h : colorOf j = colorOf k) : j = k := by
  simp only [colorOf, Prod.mk.injEq] at h
  obtain ⟨h1, h2, h3⟩ := h
  have hpar : j % 2 = k % 2 := by
    by_cases hj2 : j % 2 = 0 <;> by_cases hk2 : k % 2 = 0 <;>
      simp [hj2, hk2] at h3 <;> omega
  omega

theorem colorOf_not_mem {k : ℕ} (hk : k < 512) :
    colorOf k ∉ (List.range k).reverse.map colorOf := by
  intro hmem
  rw [List.mem_map] at hmem
  obtain ⟨j, hj, hcol⟩ := hmem
  rw [List.mem_reverse, List.mem_range] at hj
  exact absurd (colorOf_inj (lt_trans hj hk) hk hcol) (Nat.ne_of_lt hj)

theorem range_succ_reverse_map (k : ℕ) :
    colorOf k :: (List.range k).reverse.map colorOf =
      (List.range (k + 1)).reverse.map colorOf := by
  rw [List.range_succ, List.reverse_append]
  simp

/-- Running the sampling loop of the analyzer over `sampleData` from
sample k onward (k at least 1, k + m = 512 samples in total): no
transparency is found, the color set finishes with 512 entries, the
total variance grows by at least 48 per remaining sample, and 512
pixels are counted. -/
theorem sampleLoop_invariant :
    ∀ (m : ℕ), ∀ (k tv fuel : ℕ),
    1 ≤ k → k + m = 512 → m ≤ fuel →
    (analyzeLoop sampleData 20444 fuel (40 * k)
        ((List.range k).reverse.map colorOf) false tv k).1 = false ∧
    (analyzeLoop sampleData 20444 fuel (40 * k)
        ((List.range k).reverse.map colorOf) false tv k).2.1 = 512 ∧
    tv + 48 * m ≤ (analyzeLoop sampleData 20444 fuel (40 * k)
        ((List.range k).reverse.map colorOf) false tv k).2.2.1 ∧
    (analyzeLoop sampleData 20444 fuel (40 * k)
        ((List.range k).reverse.map colorOf) false tv k).2.2.2 = 512 := by
  intro m
  induction m with
  | zero =>
    intro k tv fuel hk1 hksum hfuel
    have hk : k = 512 := by omega
    subst hk
    have hge : ¬(40 * 512 < 20444) := by norm_num
    cases fuel with
    | zero =>
      simp [analyzeLoop]
    | succ f =>
      simp [analyzeLoop, hge]
  | succ m ih =>
    intro k tv fuel hk1 hksum hfuel
    have hklt : k < 512 := by omega
    have hlt : 40 * k < 20444 := by omega
    obtain ⟨f, rfl⟩ : ∃ f, fuel = f + 1 := ⟨fuel - 1, by omega⟩
    rw [analyzeLoop_step _ _ _ _ _ _ _ _ hlt]
    rw [sampleData_color, sampleData_a]
    have hcont : (((List.range k).reverse.map colorOf).contains (colorOf k)) = false := by
      simpa using colorOf_not_mem hklt
    have h255 : decide (255 < 255) = false := by decide
    have hpos : 0 < 40 * k := by omega
    rw [hcont, h255, if_pos hpos]
    have e3 : 40 * k - 38 = 40 * (k - 1) + 2 := by omega
    have ha3 : ((sampleData (40 * k + 2) : ℤ) -
        (sampleData (40 * k - 38) : ℤ)).natAbs = 48 := by
      rw [e3, sampleData_b, sampleData_b]
      by_cases hk2 : k % 2 = 0
      · have hk2' : (k - 1) % 2 = 1 := by omega
        simp [hk2, hk2']
      · have hk2' : (k - 1) % 2 = 0 := by omega
        have hk2'' : ¬(k % 2 = 0) := hk2
        simp [hk2'', hk2']
    rw [ha3]
    have hidx : 40 * k + 40 = 40 * (k + 1) := by ring
    rw [if_neg (by simp : ¬(false = true))]
    rw [hidx, range_succ_reverse_map, Bool.or_false]
    have ihres := ih (k + 1)
      (tv + ((sampleData (40 * k) : ℤ) - (sampleData (40 * k - 40) : ℤ)).natAbs
          + ((sampleData (40 * k + 1) : ℤ) - (sampleData (40 * k - 39) : ℤ)).natAbs
          + 48)
      f (by omega) (by omega) (by omega)
    refine ⟨ihres.1, ihres.2.1, ?_, ihres.2.2.2⟩
    have h48 := ihres.2.2.1
    omega

/-! ## C7: classifier mutual exclusivity -/

/-- C7: on every analyzed raster, the analyzer never reports photo and
graphic at the same time (photo needs average variance above 30 and
more than 1000 quantized colors, graphic needs variance below 20 or
fewer than 500 colors), while on some rasters both are false — for
example `sampleData`, whose 512 samples carry 512 distinct quantized
colors and an average variance of at least 48 times 511 over 512. -/
theorem analyzeImage_photo_graphic_exclusive :
    (∀ (len : ℕ) (data : ℕ → ℕ),
      ¬((analyzeImage len data).isPhoto = true ∧
        (analyzeImage len data).isGraphic = true)) ∧
    (∃ (len : ℕ) (data : ℕ → ℕ),
      (analyzeImage len data).isPhoto = false ∧
      (analyzeImage len data).isGraphic = false) := by
  constructor
  · intro len data hboth
    obtain ⟨hp, hg⟩ := hboth
    simp only [analyzeImage, Bool.and_eq_true, decide_eq_true_eq,
      Bool.or_eq_true] at hp hg
    obtain ⟨hp1, hp2⟩ := hp
    rcases hg with h | h
    · linarith
    · omega
  · refine ⟨20444, sampleData, ?_⟩
    have h20444 : (20444 : ℕ) = 20443 + 1 := by norm_num
    have h0 : (0 : ℕ) < 20444 := by norm_num
    have hstep := analyzeLoop_step sampleData 20444 20443 0 [] false 0 0 h0
    have hc0 : (sampleData 0 / 16, sampleData (0 + 1) / 16,
        sampleData (0 + 2) / 16) = colorOf 0 := by
      have := sampleData_color 0
      simpa using this
    rw [hc0] at hstep
    have ha0 : sampleData (0 + 3) = 255 := by
      have := sampleData_a 0
      simpa using this
    rw [ha0] at hstep
    have h255 : decide (255 < 255) = false := by decide
    rw [h255, Bool.or_false] at hstep
    have hcont0 : (([] : List (ℕ × ℕ × ℕ)).contains (colorOf 0)) = false := rfl
    rw [hcont0] at hstep
    have hnpos : ¬(0 < 0) := by omega
    rw [if_neg hnpos, if_neg (by simp : ¬(false = true))] at hstep
    have hcolors1 : colorOf 0 :: ([] : List (ℕ × ℕ × ℕ)) =
        (List.range 1).reverse.map colorOf := rfl
    have hinv := sampleLoop_invariant 511 1 0 20443 (by omega) (by omega) (by omega)
    rw [show 40 * 1 = 40 from by norm_num] at hinv
    rw [← hcolors1] at hinv
    rw [show (0 : ℕ) + 40 = 40 from by norm_num] at hstep
    rw [show (0 : ℕ) + 1 = 1 from by norm_num] at hstep
    rw [← hstep] at hinv
    rw [← h20444] at hinv
    obtain ⟨hT, hcc, htv, hpc⟩ := hinv
    simp only [analyzeImage, hcc, hpc]
    have hmax : (max 1 512 : ℕ) = 512 := by norm_num
    rw [hmax]
    have hd1 : decide (1000 < 512) = false := by decide
    have hd2 : decide (512 < 500) = false := by decide
    have hge : (20 : ℚ) ≤
        ((analyzeLoop sampleData 20444 20444 0 [] false 0 0).2.2.1 : ℚ) / ((512 : ℕ) : ℚ) := by
      rw [le_div_iff₀ (by norm_num : (0 : ℚ) < ((512 : ℕ) : ℚ))]
      have h1 : (10240 : ℕ) ≤ (analyzeLoop sampleData 20444 20444 0 [] false 0 0).2.2.1 := by
        omega
      calc (20 : ℚ) * ((512 : ℕ) : ℚ) = ((10240 : ℕ) : ℚ) := by norm_num
        _ ≤ _ := by exact_mod_cast h1
    constructor
    · rw [hd1, Bool.and_false]
    · rw [hd2, Bool.or_false]
      exact decide_eq_false (not_lt.mpr hge)

/-- Witness for C7: the exclusivity theorem applied at a concrete
raster (the all-zero image). -/
theorem analyzeImage_photo_graphic_exclusive_witness :
    ¬((analyzeImage 0 (fun _ => 0)).isPhoto = true ∧
      (analyzeImage 0 (fun _ => 0)).isGraphic = true) :=
  analyzeImage_photo_graphic_exclusive.1 0 (fun _ => 0)

/-! ### app.js: processAllFiles -/

/-- A queued file as `processAllFiles` reads it from the state. -/
structure FileData where
  id : ℕ
  originalName : String
  originalSize : ℕ
deriving DecidableEq

/-- The per-file status kept in the state manager. -/
inductive FileStatus where
  | pending
  | processing
  | done
  | error
deriving DecidableEq

/-- The per-file record held in `state.files`, as far as
`processAllFiles` updates it. -/
structure FileState where
  id : ℕ
  status : FileStatus
  errMsg : Option String
  result : Option ResultObj
deriving DecidableEq

/-- A file's record before processing starts. -/
def initFileState (f : FileData) : FileState :=
  { id := f.id, status := .pending, errMsg := none, result := none }

/-- `state.updateFile` from `stateManager.js`: map over the file list
and update the record whose id matches. -/
def updateFile (sts : List FileState) (id : ℕ)
    (upd : FileState → FileState) : List FileState :=
  sts.map fun st => if st.id = id then upd st else st

/-- The outcome of a batch run: the final file records, the collected
results array, and the success/error counters of `processAllFiles`. -/
structure BatchOutcome where
  fileStates : List FileState
  results : List ResultObj
  successCount : ℕ
  errorCount : ℕ
deriving DecidableEq

/-- The for-loop of `processAllFiles` in `app.js`. `process` is the
`processSingleFile` call as an oracle: `Except.error` is a thrown
per-file error, caught by the catch block, which records the message
on the file and increments errorCount; the loop then continues with
the next file in both branches. -/
def batchLoop (process : FileData → Except String ResultObj) :
    List FileData → List FileState → List ResultObj → ℕ → ℕ → BatchOutcome
  | [], sts, res, s, e => ⟨sts, res, s, e⟩
  | f :: rest, sts, res, s, e =>
    let sts1 := updateFile sts f.id fun st => { st with status := .processing }
    match process f with
    | .ok r =>
      batchLoop process rest
        (updateFile sts1 f.id fun st =>
          { st with status := .done, result := some r })
        (res ++ [r]) (s + 1) e
    | .error msg =>
      batchLoop process rest
        (updateFile sts1 f.id fun st =>
          { st with status := .error, errMsg := some msg })
        res s (e + 1)

/-- `processAllFiles` from `app.js` over the queued files. -/
def processAllFiles (process : FileData → Except String ResultObj)
    (files : List FileData) : BatchOutcome :=
  batchLoop process files (files.map initFileState) [] 0 0

/-! ## C2: batch isolation -/

/-- C2: in a batch of 5 files where exactly item 3 fails, the run
keeps a record for all 5 items: exactly one record has status error
and carries the failure message, the other 4 are done, the counters
read 4 successes and 1 error, and the failure does not abort the
processing of items 4 and 5 (they are done and their results are
collected). -/
theorem batch_isolation
    (process : FileData → Except String ResultObj)
    (f1 f2 f3 f4 f5 : FileData) (m : String) (r1 r2 r4 r5 : ResultObj)
    (hnd : ([f1.id, f2.id, f3.id, f4.id, f5.id] : List ℕ).Nodup)
    (h1 : process f1 = .ok r1) (h2 : process f2 = .ok r2)
    (h3 : process f3 = .error m) (h4 : process f4 = .ok r4)
    (h5 : process f5 = .ok r5) :
    (processAllFiles process [f1, f2, f3, f4, f5]).fileStates.map
        FileState.status = [.done, .done, .error, .done, .done] ∧
    (processAllFiles process [f1, f2, f3, f4, f5]).fileStates.map
        FileState.errMsg = [none, none, some m, none, none] ∧
    (processAllFiles process [f1, f2, f3, f4, f5]).fileStates.length = 5 ∧
    (processAllFiles process [f1, f2, f3, f4, f5]).successCount = 4 ∧
    (processAllFiles process [f1, f2, f3, f4, f5]).errorCount = 1 ∧
    (processAllFiles process [f1, f2, f3, f4, f5]).results = [r1, r2, r4, r5] := by
  simp only [List.nodup_cons, List.mem_cons, List.mem_singleton,
    List.not_mem_nil, or_false, not_or, List.nodup_nil, and_true] at hnd
  obtain ⟨⟨h12, h13, h14, h15⟩, ⟨h23, h24, h25⟩, ⟨h34, h35⟩, h45, -⟩ := hnd
  have h21 := Ne.symm h12
  have h31 := Ne.symm h13
  have h41 := Ne.symm h14
  have h51 := Ne.symm h15
  have h32 := Ne.symm h23
  have h42 := Ne.symm h24
  have h52 := Ne.symm h25
  have h43 := Ne.symm h34
  have h53 := Ne.symm h35
  have h54 := Ne.symm h45
  refine ⟨?_, ?_, ?_, ?_, ?_, ?_⟩ <;>
    simp [processAllFiles, batchLoop, updateFile, initFileState,
      h1, h2, h3, h4, h5,
      h12, h13, h14, h15, h23, h24, h25, h34, h35, h45,
      h21, h31, h41, h51, h32, h42, h52, h43, h53, h54]

/-- Witness for C2: a concrete batch of five files in which only the
file with id 3 fails. -/
theorem batch_isolation_witness :
    (processAllFiles
        (fun f => if f.id = 3 then Except.error "corrupted"
          else Except.ok ⟨"a.jpg", 100, "a_optimized.webp", 50, "webp", 50⟩)
        [⟨1, "a.jpg", 100⟩, ⟨2, "b.jpg", 100⟩, ⟨3, "c.jpg", 100⟩,
         ⟨4, "d.jpg", 100⟩, ⟨5, "e.jpg", 100⟩]).fileStates.map
        FileState.status = [.done, .done, .error, .done, .done] ∧
    (processAllFiles
        (fun f => if f.id = 3 then Except.error "corrupted"
          else Except.ok ⟨"a.jpg", 100, "a_optimized.webp", 50, "webp", 50⟩)
        [⟨1, "a.jpg", 100⟩, ⟨2, "b.jpg", 100⟩, ⟨3, "c.jpg", 100⟩,
         ⟨4, "d.jpg", 100⟩, ⟨5, "e.jpg", 100⟩]).successCount = 4 ∧
    (processAllFiles
        (fun f => if f.id = 3 then Except.error "corrupted"
          else Except.ok ⟨"a.jpg", 100, "a_optimized.webp", 50, "webp", 50⟩)
        [⟨1, "a.jpg", 100⟩, ⟨2, "b.jpg", 100⟩, ⟨3, "c.jpg", 100⟩,
         ⟨4, "d.jpg", 100⟩, ⟨5, "e.jpg", 100⟩]).errorCount = 1 := by
  have hb := batch_isolation
    (fun f => if f.id = 3 then Except.error "corrupted"
      else Except.ok ⟨"a.jpg", 100, "a_optimized.webp", 50, "webp", 50⟩)
    ⟨1, "a.jpg", 100⟩ ⟨2, "b.jpg", 100⟩ ⟨3, "c.jpg", 100⟩
    ⟨4, "d.jpg", 100⟩ ⟨5, "e.jpg", 100⟩ "corrupted"
    ⟨"a.jpg", 100, "a_optimized.webp", 50, "webp", 50⟩
    ⟨"a.jpg", 100, "a_optimized.webp", 50, "webp", 50⟩
    ⟨"a.jpg", 100, "a_optimized.webp", 50, "webp", 50⟩
    ⟨"a.jpg", 100, "a_optimized.webp", 50, "webp", 50⟩
    (by decide) rfl rfl rfl rfl rfl
  exact ⟨hb.1, hb.2.2.2.1, hb.2.2.2.2.1⟩
